import Mathlib

/-!
Verification of the quantum simulation module (`qmodule.py`) of the
HQAI-Chatbot repository against its natural-language specification.
The discrete parts of the module (validation, measurement-count analysis,
best-outcome selection, option mapping) are embedded directly from the
source.  The statevector engine and the sampler are delegated by the source
to the external Qiskit/Aer library; where a claim depends on them they are
modelled from the specification (sections 4.1-4.3) and marked as such.
Measurement results (`counts` dictionaries) are embedded as association
lists `List (String × Nat)`: a Python `dict` preserves insertion order and
the source iterates over it in exactly that order.
-/
namespace HQAI

open ComplexConjugate

/-- Python compares characters by Unicode code point. -/
def char_lt (a b : Char) : Bool := a.toNat < b.toNat

/-- Lexicographic order on character lists, as Python compares strings. -/
def str_lt_list : List Char → List Char → Bool
  | [], [] => false
  | [], _ :: _ => true
  | _ :: _, [] => false
  | a :: as, b :: bs =>
      if char_lt a b then true else if char_lt b a then false else str_lt_list as bs

/-- Python's `<` on strings: lexicographic by code point. -/
def str_lt (a b : String) : Bool := str_lt_list a.toList b.toList

/-- Embeds `max(counts.keys(), key=lambda x: counts[x])` of
`quantum_random_choice` (qmodule.py line 120) and
`quantum_optimization_demo` (line 223): Python `max` with a key function
scans in iteration order and replaces the current best only on a strictly
greater key value, so the first entry attaining the maximal count wins.
Returns `none` on an empty mapping (Python raises there). -/
def most_frequent (counts : List (String × Nat)) : Option String :=
  (counts.foldl
    (fun acc p =>
      match acc with
      | none => some p
      | some q => if q.2 < p.2 then some p else acc)
    none).map Prod.fst

/-- Embeds `int(max(counts.keys()))` of `quantum_random_bit`
(qmodule.py line 70): the plain Python `max` over the dict keys, i.e. the
lexicographically greatest bitstring, ignoring the counts. -/
def py_max_key (keys : List String) : Option String :=
  keys.foldl
    (fun acc k =>
      match acc with
      | none => some k
      | some m => if str_lt m k then some k else acc)
    none

/-- Embeds `int(s)` on the decimal bitstrings produced by measurement
(Python `int` on a non-empty all-digit string). -/
def py_int (s : String) : Option Nat :=
  if s.toList ≠ [] ∧ s.toList.all (fun c => c.isDigit) then
    some (s.toList.foldl (fun a c => 10 * a + (c.toNat - 48)) 0)
  else none

/-- The bit extraction of `quantum_random_bit` (qmodule.py line 70):
`bit = int(max(counts.keys()))`. -/
def quantum_random_bit_select (counts : List (String × Nat)) : Option Nat :=
  (py_max_key (counts.map Prod.fst)).bind py_int

/-- Written from the spec's words (section 4.3/4.4), for comparison with the
source's `most_frequent`: highest count wins and a tie between equal counts
is broken by ascending lexicographic bitstring order. -/
def spec_best (counts : List (String × Nat)) : Option String :=
  (counts.foldl
    (fun acc p =>
      match acc with
      | none => some p
      | some q => if q.2 < p.2 ∨ (p.2 = q.2 ∧ str_lt p.1 q.1) then some p else acc)
    none).map Prod.fst

/-- The maximal count occurring in a measurement result (0 for an empty one). -/
def max_count (counts : List (String × Nat)) : Nat :=
  counts.foldl (fun a p => max a p.2) 0

/-- The first key in iteration order whose count attains `max_count`:
the order-dependent selection rule the source actually implements. -/
def first_max_key (counts : List (String × Nat)) : Option String :=
  (counts.find? (fun p => p.2 == max_count counts)).map Prod.fst

/-!
## Statevector engine
Modelled from the spec: the source delegates circuit evolution to the
external Qiskit Aer simulators (qmodule.py lines 21-28, 65, 115, 218, 319),
so the engine itself is not repository code.  Sections 3, 4.1 and 4.2 of the
spec describe it: a dense complex amplitude per basis assignment, evolved
gate by gate; `Barrier` and `MeasureAll` are skipped.  Basis assignments are
functions `Fin n → Bool` (bit of qubit `i` at position `i`).
-/

/-- A quantum state on `n` qubits: one complex amplitude per assignment. -/
def QState (n : Nat) : Type := (Fin n → Bool) → ℂ

/-- The squared norm of a state: sum of squared amplitude magnitudes. -/
noncomputable def stateNormSq {n : Nat} (ψ : QState n) : ℝ :=
  ∑ b : Fin n → Bool, Complex.normSq (ψ b)

/-- The all-zero initial basis state: amplitude 1 at index 0, else 0. -/
def initState (n : Nat) : QState n :=
  fun b => if b = fun _ => false then 1 else 0

/-- A single-qubit gate matrix, indexed by (new bit, old bit). -/
def Mat2 : Type := Bool → Bool → ℂ

/-- Column-orthonormality of a 2×2 matrix (i.e. `M† M = I`), spelled out. -/
structure IsUnitary2 (M : Mat2) : Prop where
  c0 : conj (M false false) * M false false + conj (M true false) * M true false = 1
  c1 : conj (M false true) * M false true + conj (M true true) * M true true = 1
  c01 : conj (M false false) * M false true + conj (M true false) * M true true = 0

/-- Circuit operations, as built by the demo functions of `qmodule.py`
(gate set of spec section 4.1; angles are real numbers, qubit indices raw). -/
inductive Op : Type where
  | h (t : Nat)
  | z (t : Nat)
  | rx (θ : ℝ) (t : Nat)
  | ry (θ : ℝ) (t : Nat)
  | rz (θ : ℝ) (t : Nat)
  | cx (c t : Nat)
  | cz (c t : Nat)
  | rzz (θ : ℝ) (a b : Nat)
  | barrier
  | measureAll

noncomputable section Engine

/-- `(1/√2 : ℂ)`, the Hadamard coefficient. -/
def invSqrt2 : ℂ := ((Real.sqrt 2 : ℝ) : ℂ)⁻¹

/-- `H = (1/√2)·[[1,1],[1,-1]]` (spec section 4.1). -/
def Hmat : Mat2 := fun r c => if r && c then -invSqrt2 else invSqrt2

/-- `Z = diag(1,-1)`. -/
def Zmat : Mat2 := fun r c => if r = c then (if r then -1 else 1) else 0

/-- `RX(θ) = [[cos(θ/2), -i·sin(θ/2)], [-i·sin(θ/2), cos(θ/2)]]`. -/
def RXmat (θ : ℝ) : Mat2 := fun r c =>
  if r = c then ((Real.cos (θ / 2) : ℝ) : ℂ)
  else -Complex.I * ((Real.sin (θ / 2) : ℝ) : ℂ)

/-- `RY(θ) = [[cos(θ/2), -sin(θ/2)], [sin(θ/2), cos(θ/2)]]`. -/
def RYmat (θ : ℝ) : Mat2 := fun r c =>
  match r, c with
  | false, false => ((Real.cos (θ / 2) : ℝ) : ℂ)
  | false, true => -((Real.sin (θ / 2) : ℝ) : ℂ)
  | true, false => ((Real.sin (θ / 2) : ℝ) : ℂ)
  | true, true => ((Real.cos (θ / 2) : ℝ) : ℂ)

/-- `RZ(θ) = diag(e^{-iθ/2}, e^{iθ/2})`. -/
def RZmat (θ : ℝ) : Mat2 := fun r c =>
  if r = c then
    (if r then Complex.exp (((θ / 2 : ℝ) : ℂ) * Complex.I)
     else Complex.exp (((-(θ / 2) : ℝ) : ℂ) * Complex.I))
  else 0

/-- Applies a single-qubit gate at target `t`: each amplitude mixes the two
amplitudes of the pair of assignments differing only at `t`. -/
def applySingle {n : Nat} (M : Mat2) (t : Fin n) (ψ : QState n) : QState n :=
  fun b =>
    M (b t) false * ψ (Function.update b t false) +
      M (b t) true * ψ (Function.update b t true)

/-- The basis permutation of `CX`: flip the target bit when the control
bit is set. -/
def cxFun {n : Nat} (c t : Fin n) (b : Fin n → Bool) : Fin n → Bool :=
  if b c then Function.update b t (!(b t)) else b

/-- One evolution step (spec section 4.2); gates referencing an index out of
range act as the identity (the source never builds such a gate), and
`barrier` / `measureAll` are skipped. -/
def applyOp (n : Nat) (op : Op) (ψ : QState n) : QState n :=
  match op with
  | .h t => if ht : t < n then applySingle Hmat ⟨t, ht⟩ ψ else ψ
  | .z t => if ht : t < n then applySingle Zmat ⟨t, ht⟩ ψ else ψ
  | .rx θ t => if ht : t < n then applySingle (RXmat θ) ⟨t, ht⟩ ψ else ψ
  | .ry θ t => if ht : t < n then applySingle (RYmat θ) ⟨t, ht⟩ ψ else ψ
  | .rz θ t => if ht : t < n then applySingle (RZmat θ) ⟨t, ht⟩ ψ else ψ
  | .cx c t =>
      if hct : c < n ∧ t < n then fun b => ψ (cxFun ⟨c, hct.1⟩ ⟨t, hct.2⟩ b) else ψ
  | .cz c t =>
      if hct : c < n ∧ t < n then
        fun b => (if b ⟨c, hct.1⟩ && b ⟨t, hct.2⟩ then -1 else 1) * ψ b
      else ψ
  | .rzz θ a b' =>
      if hab : a < n ∧ b' < n then
        fun b =>
          (if b ⟨a, hab.1⟩ = b ⟨b', hab.2⟩ then
            Complex.exp (((-(θ / 2) : ℝ) : ℂ) * Complex.I)
          else Complex.exp (((θ / 2 : ℝ) : ℂ) * Complex.I)) * ψ b
      else ψ
  | .barrier => ψ
  | .measureAll => ψ

/-- Evolution of a state through an operation list, in order. -/
def evolve (n : Nat) (ops : List Op) (ψ : QState n) : QState n :=
  ops.foldl (fun s op => applyOp n op s) ψ

end Engine

/-- The one structural side condition norm preservation needs: a `cx` gate
has distinct control and target (true of every circuit the source builds). -/
def opOk : Op → Bool
  | .cx c t => c != t
  | _ => true

/-- The Bell circuit built by `quantum_entanglement_demo`
(qmodule.py lines 151-159): H(0); CX(0,1); barrier; measure both. -/
def bell_ops : List Op := [Op.h 0, Op.cx 0 1, Op.barrier, Op.measureAll]

/-- The final state of the Bell circuit on the spec-modelled engine. -/
noncomputable def bellState : QState 2 := evolve 2 bell_ops (initState 2)

/-- A two-qubit basis assignment from the two bits. -/
def mkB2 (x y : Bool) : Fin 2 → Bool := fun i => if i = 0 then x else y

/-- Modelled from the spec (section 4.3, Sampler — the source delegates
sampling to the Aer backend): a tally of `shots` independent categorical
draws from the distribution `|amplitude|²` sums to `shots` and only contains
outcomes of nonzero probability. -/
def IsSampleOf {n : Nat} (ψ : QState n) (shots : Nat)
    (counts : (Fin n → Bool) → Nat) : Prop :=
  (∑ b : Fin n → Bool, counts b) = shots ∧
    ∀ b, 0 < counts b → 0 < Complex.normSq (ψ b)

/-- A concrete admissible Bell tally: all 1000 shots on 00. -/
def bellWitnessCounts : (Fin 2 → Bool) → Nat :=
  fun b => if b = mkB2 false false then 1000 else 0

/-- `np.linalg.norm(data_point)`: the Euclidean norm (qmodule.py line 277). -/
noncomputable def euclid_norm (data : List ℝ) : ℝ :=
  Real.sqrt ((data.map (fun x => x ^ 2)).sum)

/-- The normalization step of amplitude encoding (qmodule.py lines 277-281):
a zero-norm vector maps to all zeros, otherwise each entry is divided by
the norm. -/
noncomputable def normalized_data (data : List ℝ) : List ℝ :=
  if euclid_norm data = 0 then data.map (fun _ => 0)
  else data.map (fun x => x / euclid_norm data)

/-- The amplitude-encoding circuit (qmodule.py lines 285-290): for feature
`i` with normalized value `v`, `RY(|v|·π)` on qubit `i`, then `Z` on qubit
`i` exactly when `v < 0`. -/
noncomputable def build_amplitude_ops (data : List ℝ) : List Op :=
  (normalized_data data).enum.flatMap (fun p =>
    [Op.ry (|p.2| * Real.pi) p.1] ++ (if p.2 < 0 then [Op.z p.1] else []))

/-- The angle-encoding circuit (qmodule.py lines 296-302): `RY(v·π)` on
qubit `i`, then `CX(i, i+1)` for every non-final feature. -/
noncomputable def build_angle_ops (data : List ℝ) : List Op :=
  data.enum.flatMap (fun p =>
    [Op.ry (p.2 * Real.pi) p.1] ++
      (if p.1 < data.length - 1 then [Op.cx p.1 (p.1 + 1)] else []))

/-- The entropy branch of `calculate_entanglement_measure`
(qmodule.py lines 368-374): distributional entropy of `|amplitude|²` with
the `1e-12` offset, normalized by `log2(len)` when that is positive. -/
noncomputable def entropy_value (sv : List ℂ) : ℝ :=
  if 0 < Real.logb 2 (sv.length : ℝ) then
    (-(((sv.map Complex.normSq).map (fun p => p * Real.logb 2 (p + 1e-12))).sum)) /
      Real.logb 2 (sv.length : ℝ)
  else 0

/-- The body of `calculate_entanglement_measure` (qmodule.py lines 355-376)
before its `except` wrapper.  `int(np.log2(len))` is the floor of the
base-2 logarithm for a nonzero length, i.e. `Nat.log2`; a length-0 vector
makes `int(np.log2(0)) = int(-inf)` raise an `OverflowError`. -/
noncomputable def entanglement_core (sv : List ℂ) : Except String ℝ :=
  if sv.length = 0 then Except.error "cannot convert float infinity to integer"
  else if Nat.log2 sv.length < 2 then Except.ok 0
  else Except.ok (entropy_value sv)

/-- `calculate_entanglement_measure` (qmodule.py lines 345-379): the
`except Exception: return 0.0` wrapper turns any internal failure into the
numeric value 0.0. -/
noncomputable def calculate_entanglement_measure (sv : List ℂ) : ℝ :=
  match entanglement_core sv with
  | .ok v => v
  | .error _ => 0

/-- Python exception values distinguished by the module: the built-in
`ValueError` used for validation, and the module's own `QuantumError`
(qmodule.py lines 30-32) used for backend/simulation failures. -/
inductive PyErr : Type where
  | valueError (msg : String)
  | quantumError (msg : String)

/-- The result record of `quantum_ml_feature_map` (qmodule.py lines
308-334); the two optional fields are present exactly when the statevector
analysis succeeded. -/
structure FMInfo : Type where
  encoding_type : String
  n_qubits : Nat
  circuit : List Op
  state_vector_norm : Option ℝ
  entanglement_measure : Option ℝ
  quantum_state_prepared : Bool

/-- The statevector-analysis block of `quantum_ml_feature_map`
(qmodule.py lines 317-334): on success the norm and entanglement fields are
added; on failure the record only reports `quantum_state_prepared = False`. -/
noncomputable def feature_map_analyze (enc : String) (nq : Nat) (ops : List Op)
    (svres : Option (List ℂ)) : FMInfo :=
  match svres with
  | some sv =>
      { encoding_type := enc, n_qubits := nq, circuit := ops,
        state_vector_norm := some (Real.sqrt ((sv.map Complex.normSq).sum)),
        entanglement_measure := some (calculate_entanglement_measure sv),
        quantum_state_prepared := true }
  | none =>
      { encoding_type := enc, n_qubits := nq, circuit := ops,
        state_vector_norm := none, entanglement_measure := none,
        quantum_state_prepared := false }

/-- `quantum_ml_feature_map` (qmodule.py lines 261-337), with the
statevector source (the module-level Aer handle plus its `run`) passed as a
parameter; `none` models an unavailable simulator or a failed run. -/
noncomputable def quantum_ml_feature_map_run
    (svsim : Nat → List Op → Option (List ℂ)) (data : List ℝ) (enc : String) :
    Except PyErr FMInfo :=
  if data.isEmpty then Except.error (.valueError "Data point cannot be empty")
  else if 8 < data.length then
    Except.error (.valueError "Data point size limited to 8 features for simulation")
  else if enc = "amplitude" then
    Except.ok (feature_map_analyze enc data.length (build_amplitude_ops data)
      (svsim data.length (build_amplitude_ops data)))
  else if enc = "angle" then
    Except.ok (feature_map_analyze enc data.length (build_angle_ops data)
      (svsim data.length (build_angle_ops data)))
  else Except.error (.valueError "Invalid encoding_type. Use amplitude or angle")

/-- The statevector as a dense list: amplitude at index `k` is the
amplitude of the assignment whose qubit-`i` bit is bit `i` of `k`. -/
noncomputable def stateList {n : Nat} (ψ : QState n) : List ℂ :=
  (List.range (2 ^ n)).map (fun k => ψ (fun i => Nat.testBit k i.val))

/-- The spec-modelled engine in the role of the source's
`statevector_simulator` backend. -/
noncomputable def spec_statevector (n : Nat) (ops : List Op) : List ℂ :=
  stateList (evolve n ops (initState n))

/-- `quantum_ml_feature_map` composed with the spec-modelled engine. -/
noncomputable def quantum_ml_feature_map_sim (data : List ℝ) (enc : String) :
    Except PyErr FMInfo :=
  quantum_ml_feature_map_run (fun n ops => some (spec_statevector n ops)) data enc

/-- `max(1, math.ceil(math.log2(n)))` (qmodule.py line 102); for `n ≥ 1`
the ceiling of the base-2 logarithm is `Nat.clog 2 n`. -/
def n_qubits_choice (k : Nat) : Nat := max 1 (Nat.clog 2 k)

/-- The circuit of `quantum_random_choice` (qmodule.py lines 105-112):
H on every qubit, then measurement of all qubits. -/
def build_choice_ops (k : Nat) : List Op :=
  (List.range (n_qubits_choice k)).map Op.h ++ [Op.measureAll]

/-- `int(bitstring, 2)` on a 0/1 string (qmodule.py line 123). -/
def py_int_base2 (s : String) : Nat :=
  s.toList.foldl (fun a c => 2 * a + (if c = '1' then 1 else 0)) 0

/-- The selection step of `quantum_random_choice` (qmodule.py lines
119-128): most frequent bitstring, its integer value modulo the number of
choices as index, returning (choice, bitstring). -/
def random_choice_select (choices : List String) (counts : List (String × Nat)) :
    Option (String × String) :=
  (most_frequent counts).map
    (fun mf => (choices.getD (py_int_base2 mf % choices.length) "", mf))

/-- `quantum_random_choice` (qmodule.py lines 94-134) with the sampling
backend passed as a parameter. -/
def quantum_random_choice_run (sim : List Op → Nat → List (String × Nat))
    (choices : List String) (shots : Nat) : Except PyErr (String × String) :=
  if choices.isEmpty then Except.error (.valueError "Choices list cannot be empty")
  else
    match random_choice_select choices (sim (build_choice_ops choices.length) shots) with
    | some r => Except.ok r
    | none => Except.error (.valueError "max arg is an empty sequence")

/-- `quantum_superposition_demo` (qmodule.py lines 395-412): validation and
circuit; the function only renders the circuit, performing no simulation. -/
def quantum_superposition_demo_run (n_qubits : Nat) : Except PyErr (List Op) :=
  if n_qubits < 1 ∨ 6 < n_qubits then
    Except.error (.valueError "Number of qubits must be between 1 and 6")
  else
    Except.ok ((List.range n_qubits).map Op.h ++
      (List.range (n_qubits - 1)).map (fun i => Op.cz i (i + 1)) ++
      [Op.barrier, Op.measureAll])

/-- The result record of `quantum_optimization_demo`
(qmodule.py lines 227-234). -/
structure OptResults : Type where
  problem_size : Nat
  best_solution : String
  success_probability : ℚ
  total_measurements : Nat
  unique_states_measured : Nat
  quantum_advantage_indicator : Bool

/-- Python's round-half-to-even on a rational. -/
def round_half_even (q : ℚ) : ℤ :=
  if q - ⌊q⌋ < 1 / 2 then ⌊q⌋
  else if (1 : ℚ) / 2 < q - ⌊q⌋ then ⌊q⌋ + 1
  else if ⌊q⌋ % 2 = 0 then ⌊q⌋ else ⌊q⌋ + 1

/-- `round(x, 3)` (qmodule.py line 230). -/
def py_round3 (q : ℚ) : ℚ := (round_half_even (q * 1000) : ℚ) / 1000

/-- The analysis step of `quantum_optimization_demo` (qmodule.py lines
222-234): best bitstring by count, success probability rounded to 3
decimals, advantage indicator from the unrounded ratio against the uniform
baseline. -/
def quantum_optimization_analyze (ps : Nat) (counts : List (String × Nat)) :
    Option OptResults :=
  (most_frequent counts).map (fun best =>
    { problem_size := ps,
      best_solution := best,
      success_probability := py_round3 (((counts.lookup best).getD 0 : ℚ) / 1024),
      total_measurements := 1024,
      unique_states_measured := counts.length,
      quantum_advantage_indicator :=
        decide ((1 : ℚ) / 2 ^ ps < ((counts.lookup best).getD 0 : ℚ) / 1024) })

/-- The QAOA-inspired circuit of `quantum_optimization_demo`
(qmodule.py lines 197-214): H on all, RZZ(π/4) on adjacent pairs,
RX(2·π/3) on all, measure. -/
noncomputable def build_opt_ops (ps : Nat) : List Op :=
  (List.range ps).map Op.h ++
    (List.range (ps - 1)).map (fun i => Op.rzz (Real.pi / 4) i (i + 1)) ++
    (List.range ps).map (fun i => Op.rx (2 * (Real.pi / 3)) i) ++
    [Op.measureAll]

/-- `quantum_optimization_demo` (qmodule.py lines 190-243) with the
sampling backend passed as a parameter; shots is fixed at 1024. -/
noncomputable def quantum_optimization_demo_run
    (sim : List Op → Nat → List (String × Nat)) (ps : Nat) : Except PyErr OptResults :=
  if ps < 2 ∨ 10 < ps then
    Except.error (.valueError "Problem size must be between 2 and 10 qubits")
  else
    match quantum_optimization_analyze ps (sim (build_opt_ops ps) 1024) with
    | some r => Except.ok r
    | none => Except.error (.valueError "max arg is an empty sequence")

section SelectionLemmas

private lemma foldl_max_comm (l : List Nat) :
    ∀ a b : Nat, l.foldl max (max a b) = max a (l.foldl max b) := by
  induction l with
  | nil => intro a b; rfl
  | cons p l ih =>
      intro a b
      simp only [List.foldl_cons]
      rw [max_assoc] at *
      exact ih a (max b p)

private lemma max_count_cons (p : String × Nat) (l : List (String × Nat)) :
    max_count (p :: l) = max p.2 (max_count l) := by
  simp only [max_count, List.foldl_cons, Nat.zero_max]
  have h := foldl_max_comm (l.map Prod.snd) p.2 0
  have hmap : ∀ (m : List (String × Nat)) (a : Nat),
      m.foldl (fun x q => max x q.2) a = (m.map Prod.snd).foldl max a := by
    intro m
    induction m with
    | nil => intro a; rfl
    | cons q m ih => intro a; simp [List.foldl_cons, ih]
  rw [hmap, hmap]
  simpa using h

private lemma foldl_step_spec (l : List (String × Nat)) :
    ∀ q : String × Nat,
      (l.foldl
        (fun acc p =>
          match acc with
          | none => some p
          | some r => if r.2 < p.2 then some p else acc)
        (some q)).map Prod.fst =
      if max_count l ≤ q.2 then some q.1
      else (l.find? (fun p => p.2 == max_count l)).map Prod.fst := by
  induction l with
  | nil =>
      intro q
      simp [max_count]
  | cons p l ih =>
      intro q
      rw [max_count_cons]
      by_cases hqp : q.2 < p.2
      · have hstep : (List.foldl
            (fun acc p =>
              match acc with
              | none => some p
              | some r => if r.2 < p.2 then some p else acc)
            (some q) (p :: l)) = (List.foldl
            (fun acc p =>
              match acc with
              | none => some p
              | some r => if r.2 < p.2 then some p else acc)
            (some p) l) := by
          simp [List.foldl_cons, hqp]
        rw [hstep, ih p]
        have hcond : ¬ (max p.2 (max_count l) ≤ q.2) := by omega
        rw [if_neg hcond]
        by_cases hl : max_count l ≤ p.2
        · have hmax : max p.2 (max_count l) = p.2 := by omega
          rw [hmax, if_pos hl]
          have hfind : (p :: l).find? (fun r => r.2 == p.2) = some p := by
            simp [List.find?]
          rw [hfind]
          simp
        · have hmax : max p.2 (max_count l) = max_count l := by omega
          rw [hmax, if_neg hl]
          have hfind : (p :: l).find? (fun r => r.2 == max_count l) =
              l.find? (fun r => r.2 == max_count l) := by
            have : (p.2 == max_count l) = false := by
              simp only [beq_eq_false_iff_ne, ne_eq]
              omega
            simp [List.find?, this]
          rw [hfind]
      · have hstep : (List.foldl
            (fun acc p =>
              match acc with
              | none => some p
              | some r => if r.2 < p.2 then some p else acc)
            (some q) (p :: l)) = (List.foldl
            (fun acc p =>
              match acc with
              | none => some p
              | some r => if r.2 < p.2 then some p else acc)
            (some q) l) := by
          simp [List.foldl_cons, hqp]
        rw [hstep, ih q]
        by_cases hl : max_count l ≤ q.2
        · have hcond : max p.2 (max_count l) ≤ q.2 := by omega
          rw [if_pos hl, if_pos hcond]
        · have hcond : ¬ (max p.2 (max_count l) ≤ q.2) := by omega
          have hmax : max p.2 (max_count l) = max_count l := by omega
          rw [if_neg hl, if_neg hcond, hmax]
          have : (p.2 == max_count l) = false := by
            simp only [beq_eq_false_iff_ne, ne_eq]
            omega
          simp [List.find?, this]

end SelectionLemmas

/-- C2 (counterexample): on the measurement result that tallies bitstring
"10" before "01", both with count 5, the source's selection
(`max(counts, key=...)`) returns "10", whereas the claimed rule — highest
count with ties broken by ascending lexicographic order — returns "01". -/
theorem most_frequent_not_lex_tiebreak :
    most_frequent [("10", 5), ("01", 5)] = some "10" ∧
    spec_best [("10", 5), ("01", 5)] = some "01" ∧
    most_frequent [("10", 5), ("01", 5)] ≠ spec_best [("10", 5), ("01", 5)] := by
  refine ⟨by decide, by decide, by decide⟩

/-- C2 (amended): the best outcome selected by `quantum_random_choice` and
`quantum_optimization_demo` is the first bitstring, in the result mapping's
iteration order, whose count attains the maximal count; the tie-break is
iteration order, not lexicographic order. -/
theorem most_frequent_eq_first_max (counts : List (String × Nat)) :
    most_frequent counts = first_max_key counts := by
  cases counts with
  | nil => rfl
  | cons p l =>
      have h := foldl_step_spec l p
      simp only [most_frequent, List.foldl_cons] at *
      rw [h]
      simp only [first_max_key, max_count_cons]
      by_cases hl : max_count l ≤ p.2
      · have hmax : max p.2 (max_count l) = p.2 := by omega
        rw [if_pos hl, hmax]
        have hfind : (p :: l).find? (fun r => r.2 == p.2) = some p := by
          simp [List.find?]
        rw [hfind]
        simp
      · have hmax : max p.2 (max_count l) = max_count l := by omega
        rw [if_neg hl, hmax]
        have : (p.2 == max_count l) = false := by
          simp only [beq_eq_false_iff_ne, ne_eq]
          omega
        simp [List.find?, this]

/-- C1 (code_bug evaluation): on the counts `{"0": 2, "1": 1}` (reachable
with shots = 3), `quantum_random_bit` computes `int(max(counts.keys())) = 1`
— the lexicographically greatest key — although the highest-count outcome,
which the claim and the source's own comment ("Extract the most frequent
result") require, is 0. -/
theorem quantum_random_bit_divergence :
    quantum_random_bit_select [("0", 2), ("1", 1)] = some 1 ∧
    spec_best [("0", 2), ("1", 1)] = some "0" ∧
    most_frequent [("0", 2), ("1", 1)] = some "0" := by
  refine ⟨by decide, by decide, by decide⟩

/-- Applying a column-orthonormal 2×2 matrix to a pair of amplitudes
preserves the sum of their squared magnitudes. -/
lemma unitary_pair (M : Mat2) (hM : IsUnitary2 M) (v0 v1 : ℂ) :
    Complex.normSq (M false false * v0 + M false true * v1) +
      Complex.normSq (M true false * v0 + M true true * v1) =
      Complex.normSq v0 + Complex.normSq v1 := by
  have hconj : M false false * conj (M false true) + M true false * conj (M true true) = 0 := by
    have h := congrArg (starRingEnd ℂ) hM.c01
    simpa [map_add, map_mul, mul_comm] using h
  have key :
      (M false false * v0 + M false true * v1) * conj (M false false * v0 + M false true * v1) +
        (M true false * v0 + M true true * v1) * conj (M true false * v0 + M true true * v1) =
        v0 * conj v0 + v1 * conj v1 := by
    simp only [map_add, map_mul]
    linear_combination (v0 * conj v0) * hM.c0 + (v1 * conj v1) * hM.c1 +
      (v0 * conj v1) * hconj + (conj v0 * v1) * hM.c01
  rw [Complex.mul_conj, Complex.mul_conj, Complex.mul_conj, Complex.mul_conj] at key
  exact_mod_cast key

section SplitLemmas

variable {n : Nat} (t : Fin n)

private lemma funSplitAt_symm_at (x : Bool) (r : { j : Fin n // j ≠ t } → Bool) :
    (Equiv.funSplitAt t Bool).symm (x, r) t = x := by
  simp [Equiv.funSplitAt, Equiv.piSplitAt]

private lemma update_funSplitAt_symm (x y : Bool) (r : { j : Fin n // j ≠ t } → Bool) :
    Function.update ((Equiv.funSplitAt t Bool).symm (x, r)) t y =
      (Equiv.funSplitAt t Bool).symm (y, r) := by
  funext j
  by_cases hj : j = t
  · subst hj
    simp [Equiv.funSplitAt, Equiv.piSplitAt]
  · simp [Equiv.funSplitAt, Equiv.piSplitAt, Function.update, hj]

end SplitLemmas

/-- A single-qubit gate with a column-orthonormal matrix preserves the
squared norm of the full state (spec sections 3 and 8: gates are unitary). -/
lemma stateNormSq_applySingle {n : Nat} (M : Mat2) (hM : IsUnitary2 M) (t : Fin n)
    (ψ : QState n) : stateNormSq (applySingle M t ψ) = stateNormSq ψ := by
  classical
  unfold stateNormSq
  rw [← Equiv.sum_comp (Equiv.funSplitAt t Bool).symm
        (fun b => Complex.normSq (applySingle M t ψ b)),
      ← Equiv.sum_comp (Equiv.funSplitAt t Bool).symm
        (fun b => Complex.normSq (ψ b))]
  rw [Fintype.sum_prod_type, Fintype.sum_prod_type]
  rw [Finset.sum_comm]
  nth_rewrite 2 [Finset.sum_comm]
  refine Finset.sum_congr rfl fun r _ => ?_
  have happ : ∀ x : Bool,
      applySingle M t ψ ((Equiv.funSplitAt t Bool).symm (x, r)) =
        M x false * ψ ((Equiv.funSplitAt t Bool).symm (false, r)) +
          M x true * ψ ((Equiv.funSplitAt t Bool).symm (true, r)) := by
    intro x
    simp only [applySingle, funSplitAt_symm_at, update_funSplitAt_symm]
  rw [Fintype.sum_bool, Fintype.sum_bool, happ true, happ false]
  have hpair := unitary_pair M hM
    (ψ ((Equiv.funSplitAt t Bool).symm (false, r)))
    (ψ ((Equiv.funSplitAt t Bool).symm (true, r)))
  linarith [hpair]

/-- The `CX` basis permutation is an involution when control ≠ target. -/
lemma cxFun_invol {n : Nat} (c t : Fin n) (hct : c ≠ t) (b : Fin n → Bool) :
    cxFun c t (cxFun c t b) = b := by
  unfold cxFun
  by_cases hbc : b c
  · have h1 : Function.update b t (!(b t)) c = b c := Function.update_noteq hct _ b
    simp only [hbc, if_true, h1, Function.update_same]
    rw [Bool.not_not, Function.update_idem, Function.update_eq_self]
  · simp [hbc]

/-- Permuting basis amplitudes preserves the squared norm. -/
lemma stateNormSq_cx {n : Nat} (c t : Fin n) (hct : c ≠ t) (ψ : QState n) :
    stateNormSq (fun b => ψ (cxFun c t b)) = stateNormSq ψ := by
  unfold stateNormSq
  have hinv : Function.Involutive (cxFun c t) := cxFun_invol c t hct
  exact hinv.bijective.sum_comp (fun b => Complex.normSq (ψ b))

/-- Multiplying each amplitude by a unit-modulus phase preserves the
squared norm. -/
lemma stateNormSq_phase {n : Nat} (f : (Fin n → Bool) → ℂ)
    (hf : ∀ b, Complex.normSq (f b) = 1) (ψ : QState n) :
    stateNormSq (fun b => f b * ψ b) = stateNormSq ψ := by
  unfold stateNormSq
  refine Finset.sum_congr rfl fun b _ => ?_
  rw [Complex.normSq_mul, hf b, one_mul]

lemma isUnitary2_Hmat : IsUnitary2 Hmat := by
  have h2 : ((Real.sqrt 2 : ℝ) : ℂ) * ((Real.sqrt 2 : ℝ) : ℂ) = 2 := by
    rw [← Complex.ofReal_mul, Real.mul_self_sqrt (by norm_num)]
    norm_num
  have hhalf : invSqrt2 * invSqrt2 = 2⁻¹ := by
    rw [invSqrt2, ← mul_inv, h2]
  have hconj : conj invSqrt2 = invSqrt2 := by
    rw [invSqrt2, map_inv₀, Complex.conj_ofReal]
  refine ⟨?_, ?_, ?_⟩
  · show conj invSqrt2 * invSqrt2 + conj invSqrt2 * invSqrt2 = 1
    rw [hconj, hhalf]
    norm_num
  · show conj invSqrt2 * invSqrt2 + conj (-invSqrt2) * (-invSqrt2) = 1
    rw [map_neg, hconj, neg_mul_neg, hhalf]
    norm_num
  · show conj invSqrt2 * invSqrt2 + conj invSqrt2 * (-invSqrt2) = 0
    ring

lemma isUnitary2_Zmat : IsUnitary2 Zmat := by
  refine ⟨?_, ?_, ?_⟩
  · show conj (1 : ℂ) * 1 + conj (0 : ℂ) * 0 = 1
    simp
  · show conj (0 : ℂ) * 0 + conj (-1 : ℂ) * (-1) = 1
    simp
  · show conj (1 : ℂ) * 0 + conj (0 : ℂ) * (-1) = 0
    simp

lemma isUnitary2_RYmat (θ : ℝ) : IsUnitary2 (RYmat θ) := by
  have hpy : ((Real.sin (θ / 2) : ℝ) : ℂ) ^ 2 + ((Real.cos (θ / 2) : ℝ) : ℂ) ^ 2 = 1 := by
    exact_mod_cast congrArg (fun x : ℝ => (x : ℂ)) (Real.sin_sq_add_cos_sq (θ / 2))
  refine ⟨?_, ?_, ?_⟩
  · show conj ((Real.cos (θ / 2) : ℝ) : ℂ) * ((Real.cos (θ / 2) : ℝ) : ℂ) +
      conj ((Real.sin (θ / 2) : ℝ) : ℂ) * ((Real.sin (θ / 2) : ℝ) : ℂ) = 1
    rw [Complex.conj_ofReal, Complex.conj_ofReal]
    linear_combination hpy
  · show conj (-((Real.sin (θ / 2) : ℝ) : ℂ)) * (-((Real.sin (θ / 2) : ℝ) : ℂ)) +
      conj ((Real.cos (θ / 2) : ℝ) : ℂ) * ((Real.cos (θ / 2) : ℝ) : ℂ) = 1
    rw [map_neg, Complex.conj_ofReal, Complex.conj_ofReal]
    linear_combination hpy
  · show conj ((Real.cos (θ / 2) : ℝ) : ℂ) * (-((Real.sin (θ / 2) : ℝ) : ℂ)) +
      conj ((Real.sin (θ / 2) : ℝ) : ℂ) * ((Real.cos (θ / 2) : ℝ) : ℂ) = 0
    rw [Complex.conj_ofReal, Complex.conj_ofReal]
    ring

lemma isUnitary2_RXmat (θ : ℝ) : IsUnitary2 (RXmat θ) := by
  have hpy : ((Real.sin (θ / 2) : ℝ) : ℂ) ^ 2 + ((Real.cos (θ / 2) : ℝ) : ℂ) ^ 2 = 1 := by
    exact_mod_cast congrArg (fun x : ℝ => (x : ℂ)) (Real.sin_sq_add_cos_sq (θ / 2))
  have hconjI : conj (-Complex.I * ((Real.sin (θ / 2) : ℝ) : ℂ)) =
      Complex.I * ((Real.sin (θ / 2) : ℝ) : ℂ) := by
    rw [map_mul, map_neg, Complex.conj_I, Complex.conj_ofReal, neg_neg]
  refine ⟨?_, ?_, ?_⟩
  · show conj ((Real.cos (θ / 2) : ℝ) : ℂ) * ((Real.cos (θ / 2) : ℝ) : ℂ) +
      conj (-Complex.I * ((Real.sin (θ / 2) : ℝ) : ℂ)) *
        (-Complex.I * ((Real.sin (θ / 2) : ℝ) : ℂ)) = 1
    rw [Complex.conj_ofReal, hconjI]
    linear_combination hpy - ((Real.sin (θ / 2) : ℝ) : ℂ) ^ 2 * Complex.I_sq
  · show conj (-Complex.I * ((Real.sin (θ / 2) : ℝ) : ℂ)) *
        (-Complex.I * ((Real.sin (θ / 2) : ℝ) : ℂ)) +
      conj ((Real.cos (θ / 2) : ℝ) : ℂ) * ((Real.cos (θ / 2) : ℝ) : ℂ) = 1
    rw [Complex.conj_ofReal, hconjI]
    linear_combination hpy - ((Real.sin (θ / 2) : ℝ) : ℂ) ^ 2 * Complex.I_sq
  · show conj ((Real.cos (θ / 2) : ℝ) : ℂ) * (-Complex.I * ((Real.sin (θ / 2) : ℝ) : ℂ)) +
      conj (-Complex.I * ((Real.sin (θ / 2) : ℝ) : ℂ)) * ((Real.cos (θ / 2) : ℝ) : ℂ) = 0
    rw [Complex.conj_ofReal, hconjI]
    ring

lemma conj_exp_mul_I (x : ℝ) :
    conj (Complex.exp ((x : ℂ) * Complex.I)) * Complex.exp ((x : ℂ) * Complex.I) = 1 := by
  rw [← Complex.exp_conj, ← Complex.exp_add]
  have h : conj ((x : ℂ) * Complex.I) + (x : ℂ) * Complex.I = 0 := by
    rw [map_mul, Complex.conj_I, Complex.conj_ofReal]
    ring
  rw [h, Complex.exp_zero]

lemma isUnitary2_RZmat (θ : ℝ) : IsUnitary2 (RZmat θ) := by
  refine ⟨?_, ?_, ?_⟩
  · show conj (Complex.exp (((-(θ / 2) : ℝ) : ℂ) * Complex.I)) *
      Complex.exp (((-(θ / 2) : ℝ) : ℂ) * Complex.I) + conj (0 : ℂ) * 0 = 1
    rw [map_zero, mul_zero, add_zero]
    exact conj_exp_mul_I (-(θ / 2))
  · show conj (0 : ℂ) * 0 + conj (Complex.exp (((θ / 2 : ℝ) : ℂ) * Complex.I)) *
      Complex.exp (((θ / 2 : ℝ) : ℂ) * Complex.I) = 1
    rw [map_zero, zero_mul, zero_add]
    exact conj_exp_mul_I (θ / 2)
  · show conj (Complex.exp (((-(θ / 2) : ℝ) : ℂ) * Complex.I)) * 0 +
      conj (0 : ℂ) * Complex.exp (((θ / 2 : ℝ) : ℂ) * Complex.I) = 0
    simp

/-- Squared magnitude of `e^{ix}` is 1. -/
lemma normSq_exp_mul_I (x : ℝ) : Complex.normSq (Complex.exp ((x : ℂ) * Complex.I)) = 1 := by
  rw [← Complex.sq_abs, Complex.abs_exp_ofReal_mul_I]
  norm_num

/-- Every well-formed operation preserves the squared norm of the state. -/
lemma stateNormSq_applyOp (n : Nat) (op : Op) (hop : opOk op = true) (ψ : QState n) :
    stateNormSq (applyOp n op ψ) = stateNormSq ψ := by
  cases op with
  | h t =>
      rw [applyOp]
      split
      · exact stateNormSq_applySingle Hmat isUnitary2_Hmat _ ψ
      · rfl
  | z t =>
      rw [applyOp]
      split
      · exact stateNormSq_applySingle Zmat isUnitary2_Zmat _ ψ
      · rfl
  | rx θ t =>
      rw [applyOp]
      split
      · exact stateNormSq_applySingle (RXmat θ) (isUnitary2_RXmat θ) _ ψ
      · rfl
  | ry θ t =>
      rw [applyOp]
      split
      · exact stateNormSq_applySingle (RYmat θ) (isUnitary2_RYmat θ) _ ψ
      · rfl
  | rz θ t =>
      rw [applyOp]
      split
      · exact stateNormSq_applySingle (RZmat θ) (isUnitary2_RZmat θ) _ ψ
      · rfl
  | cx c t =>
      have hct : c ≠ t := by
        have : (c != t) = true := hop
        simpa using this
      rw [applyOp]
      split
      · next hlt =>
          refine stateNormSq_cx ⟨c, hlt.1⟩ ⟨t, hlt.2⟩ ?_ ψ
          intro heq
          exact hct (congrArg Fin.val heq)
      · rfl
  | cz c t =>
      rw [applyOp]
      split
      · refine stateNormSq_phase _ (fun b => ?_) ψ
        split
        · simp
        · simp
      · rfl
  | rzz θ a b' =>
      rw [applyOp]
      split
      · refine stateNormSq_phase _ (fun b => ?_) ψ
        split
        · exact normSq_exp_mul_I (-(θ / 2))
        · exact normSq_exp_mul_I (θ / 2)
      · rfl
  | barrier => rfl
  | measureAll => rfl

/-- Evolution through a list of well-formed operations preserves the
squared norm. -/
lemma stateNormSq_evolve (n : Nat) (ops : List Op) (hops : ops.all opOk = true)
    (ψ : QState n) : stateNormSq (evolve n ops ψ) = stateNormSq ψ := by
  induction ops generalizing ψ with
  | nil => rfl
  | cons op rest ih =>
      rw [List.all_cons, Bool.and_eq_true] at hops
      have hstep : evolve n (op :: rest) ψ = evolve n rest (applyOp n op ψ) := rfl
      rw [hstep, ih hops.2 (applyOp n op ψ), stateNormSq_applyOp n op hops.1 ψ]

/-- The all-zero initial state is normalized. -/
lemma stateNormSq_initState (n : Nat) : stateNormSq (initState n) = 1 := by
  classical
  unfold stateNormSq initState
  rw [Finset.sum_congr rfl
    (fun b _ => by
      rw [apply_ite Complex.normSq, Complex.normSq_one, Complex.normSq_zero])]
  rw [Finset.sum_ite_eq' Finset.univ (fun _ : Fin n => false) (fun _ => (1 : ℝ))]
  simp

/-- C4: for every circuit over the engine's gate set (with the structural
invariant that a CX gate has distinct control and target, true of every
circuit the source builds), the state obtained by evolving the all-zero
initial state has Σ|amplitude|² = 1 after each applied gate — exactly, and
hence within the 1e-9 tolerance the spec allows. -/
theorem normalization_invariant (n : Nat) (ops : List Op)
    (h : ops.all opOk = true) (k : Nat) :
    stateNormSq (evolve n (ops.take k) (initState n)) = 1 ∧
      |stateNormSq (evolve n (ops.take k) (initState n)) - 1| ≤ 1e-9 := by
  have htake : (ops.take k).all opOk = true := by
    rw [List.all_eq_true] at h ⊢
    exact fun x hx => h x (List.take_subset k ops hx)
  have h1 : stateNormSq (evolve n (ops.take k) (initState n)) = 1 := by
    rw [stateNormSq_evolve n _ htake, stateNormSq_initState]
  refine ⟨h1, ?_⟩
  rw [h1]
  norm_num

/-- Witness for C4: the Bell circuit H(0); CX(0,1) on two qubits, after
both of its gates. -/
theorem normalization_invariant_witness :
    stateNormSq (evolve 2 ([Op.h 0, Op.cx 0 1].take 2) (initState 2)) = 1 ∧
      |stateNormSq (evolve 2 ([Op.h 0, Op.cx 0 1].take 2) (initState 2)) - 1| ≤ 1e-9 :=
  normalization_invariant 2 [Op.h 0, Op.cx 0 1] (by decide) 2

lemma bell_state_eq :
    bellState = fun b =>
      applySingle Hmat (0 : Fin 2) (initState 2) (cxFun (0 : Fin 2) (1 : Fin 2) b) := rfl

/-- The Bell amplitudes: `1/√2` on the equal-bits assignments, 0 on the
others. -/
lemma bell_amp (x y : Bool) :
    bellState (mkB2 x y) = if x = y then invSqrt2 else 0 := by
  rw [bell_state_eq]
  cases x <;> cases y <;>
    simp [applySingle, cxFun, initState, Hmat, mkB2, Function.update_apply,
      funext_iff, Fin.forall_fin_two]

/-- C9: any categorical sample of 1000 shots from the Bell state has
exactly 0 counts on the bitstrings 01 and 10, and the counts of 00 and 11
sum to 1000. -/
theorem bell_measurement_counts (counts : (Fin 2 → Bool) → Nat)
    (h : IsSampleOf bellState 1000 counts) :
    counts (mkB2 false true) = 0 ∧ counts (mkB2 true false) = 0 ∧
      counts (mkB2 false false) + counts (mkB2 true true) = 1000 := by
  obtain ⟨hsum, hsupp⟩ := h
  have h01 : counts (mkB2 false true) = 0 := by
    by_contra hne
    have hpos := hsupp _ (Nat.pos_of_ne_zero hne)
    rw [bell_amp false true] at hpos
    simp at hpos
  have h10 : counts (mkB2 true false) = 0 := by
    by_contra hne
    have hpos := hsupp _ (Nat.pos_of_ne_zero hne)
    rw [bell_amp true false] at hpos
    simp at hpos
  have huniv : (Finset.univ : Finset (Fin 2 → Bool)) =
      {mkB2 false false, mkB2 false true, mkB2 true false, mkB2 true true} := by
    decide
  rw [huniv] at hsum
  rw [Finset.sum_insert (by decide), Finset.sum_insert (by decide),
    Finset.sum_insert (by decide), Finset.sum_singleton] at hsum
  refine ⟨h01, h10, ?_⟩
  omega

/-- Witness for C9 at the concrete tally `bellWitnessCounts`. -/
theorem bell_measurement_counts_witness :
    bellWitnessCounts (mkB2 false true) = 0 ∧ bellWitnessCounts (mkB2 true false) = 0 ∧
      bellWitnessCounts (mkB2 false false) + bellWitnessCounts (mkB2 true true) = 1000 := by
  refine bell_measurement_counts bellWitnessCounts ⟨?_, ?_⟩
  · rw [Finset.sum_congr rfl (fun b _ => by
      rw [show bellWitnessCounts b = if b = mkB2 false false then 1000 else 0 from rfl])]
    rw [Finset.sum_ite_eq' Finset.univ (mkB2 false false) (fun _ => 1000)]
    simp
  · intro b hb
    have hbe : b = mkB2 false false := by
      by_contra hne
      rw [show bellWitnessCounts b = if b = mkB2 false false then 1000 else 0 from rfl,
        if_neg hne] at hb
      exact Nat.lt_irrefl 0 hb
    subst hbe
    have hval : bellState (mkB2 false false) = invSqrt2 := by
      rw [bell_amp]
      simp
    rw [hval]
    refine Complex.normSq_pos.mpr ?_
    rw [invSqrt2]
    simp only [ne_eq, inv_eq_zero, Complex.ofReal_eq_zero]
    exact (Real.sqrt_pos.mpr (by norm_num)).ne'

/-- `RY(0)` is the identity: rotating by angle 0 leaves every amplitude
unchanged. -/
lemma applySingle_RY0 {n : Nat} (t : Fin n) (ψ : QState n) :
    applySingle (RYmat 0) t ψ = ψ := by
  funext b
  show RYmat 0 (b t) false * ψ (Function.update b t false) +
      RYmat 0 (b t) true * ψ (Function.update b t true) = ψ b
  cases hbt : b t with
  | false =>
      have hu : Function.update b t false = b := by
        rw [← hbt, Function.update_eq_self]
      rw [hu]
      show ((Real.cos (0 / 2 : ℝ) : ℝ) : ℂ) * ψ b +
          (-((Real.sin (0 / 2 : ℝ) : ℝ) : ℂ)) * ψ (Function.update b t true) = ψ b
      norm_num
  | true =>
      have hu : Function.update b t true = b := by
        rw [← hbt, Function.update_eq_self]
      rw [hu]
      show ((Real.sin (0 / 2 : ℝ) : ℝ) : ℂ) * ψ (Function.update b t false) +
          ((Real.cos (0 / 2 : ℝ) : ℝ) : ℂ) * ψ b = ψ b
      norm_num

/-- C8: amplitude encoding normalizes by the Euclidean norm with the zero
vector mapping to all-zero angles: on `[0,0,0]` the built circuit is three
`RY(0)` rotations and no `Z`, and evolving the all-zero state through it
yields exactly the all-zero basis state (amplitude 1 at index 0, 0
elsewhere); on `[-1]` the circuit is `RY(|-1|·π)` followed by `Z`,
confirming the RY-then-Z-iff-negative rule. -/
theorem feature_map_amplitude_zero_vector :
    normalized_data [0, 0, 0] = [0, 0, 0] ∧
    build_amplitude_ops [0, 0, 0] = [Op.ry 0 0, Op.ry 0 1, Op.ry 0 2] ∧
    build_amplitude_ops [-1] = [Op.ry Real.pi 0, Op.z 0] ∧
    evolve 3 (build_amplitude_ops [0, 0, 0]) (initState 3) = initState 3 ∧
    initState 3 (fun _ => false) = 1 ∧
    (∀ b : Fin 3 → Bool, b ≠ (fun _ => false) → initState 3 b = 0) := by
  have hnorm0 : euclid_norm [0, 0, 0] = 0 := by
    rw [euclid_norm]
    norm_num
  have hnd : normalized_data [0, 0, 0] = [0, 0, 0] := by
    rw [normalized_data, if_pos hnorm0]
    norm_num
  have hops : build_amplitude_ops [0, 0, 0] = [Op.ry 0 0, Op.ry 0 1, Op.ry 0 2] := by
    rw [build_amplitude_ops, hnd]
    norm_num [List.enum, List.enumFrom, List.flatMap]
  have hneg : build_amplitude_ops [-1] = [Op.ry Real.pi 0, Op.z 0] := by
    have hn1 : euclid_norm [-1] = 1 := by
      rw [euclid_norm]
      norm_num
    have hnd1 : normalized_data [-1] = [-1] := by
      rw [normalized_data, if_neg (by rw [hn1]; norm_num), hn1]
      norm_num
    rw [build_amplitude_ops, hnd1]
    norm_num [List.enum, List.enumFrom, List.flatMap]
  refine ⟨hnd, hops, hneg, ?_, by rw [initState]; simp, ?_⟩
  · rw [hops]
    show applyOp 3 (Op.ry 0 2) (applyOp 3 (Op.ry 0 1) (applyOp 3 (Op.ry 0 0)
      (initState 3))) = initState 3
    show applySingle (RYmat 0) (2 : Fin 3) (applySingle (RYmat 0) (1 : Fin 3)
      (applySingle (RYmat 0) (0 : Fin 3) (initState 3))) = initState 3
    rw [applySingle_RY0, applySingle_RY0, applySingle_RY0]
  · intro b hb
    rw [initState, if_neg hb]

/-- Witness evaluating C8's last conjunct at the basis state 100. -/
theorem feature_map_amplitude_zero_vector_witness :
    initState 3 (fun i => if i = 0 then true else false) = 0 :=
  feature_map_amplitude_zero_vector.2.2.2.2.2 _ (by
    intro h
    have := congrFun h 0
    simp at this)

/-- C6 (counterexample): on the empty statevector the internal computation
fails (`int(np.log2(0))` overflows), yet `calculate_entanglement_measure`
returns the fallback numeric value 0.0 instead of raising or reporting. -/
theorem entanglement_fallback_zero :
    entanglement_core [] = Except.error "cannot convert float infinity to integer" ∧
    calculate_entanglement_measure [] = 0 :=
  ⟨rfl, rfl⟩

/-- C6 (amended): when the entanglement computation fails internally,
`calculate_entanglement_measure` returns the fallback value 0.0; a failure
of the statevector analysis in `quantum_ml_feature_map` is reported via
`quantum_state_prepared = False` with no numeric metrics substituted. -/
theorem entanglement_measure_fallback :
    (∀ (sv : List ℂ) (e : String), entanglement_core sv = Except.error e →
      calculate_entanglement_measure sv = 0) ∧
    (∀ (enc : String) (nq : Nat) (ops : List Op),
      (feature_map_analyze enc nq ops none).quantum_state_prepared = false ∧
      (feature_map_analyze enc nq ops none).entanglement_measure = none ∧
      (feature_map_analyze enc nq ops none).state_vector_norm = none) := by
  constructor
  · intro sv e h
    rw [calculate_entanglement_measure, h]
  · intro enc nq ops
    exact ⟨rfl, rfl, rfl⟩

/-- Witness for C6 (amended) at the empty statevector. -/
theorem entanglement_measure_fallback_witness :
    calculate_entanglement_measure [] = 0 :=
  entanglement_measure_fallback.1 [] "cannot convert float infinity to integer" rfl

/-- C10: on any statevector of fewer than 4 amplitudes (fewer than 2
qubits) the entanglement measure is exactly 0.0, the entropy branch never
being reached; consequently `quantum_ml_feature_map` on a single-feature
data point always reports `entanglement_measure = 0.0`, whatever the
feature value and encoding. -/
theorem entanglement_small_state_zero :
    (∀ sv : List ℂ, sv.length < 4 → calculate_entanglement_measure sv = 0) ∧
    (∀ (data : List ℝ) (enc : String), data.length = 1 →
      (enc = "amplitude" ∨ enc = "angle") →
      (quantum_ml_feature_map_sim data enc).toOption.map FMInfo.entanglement_measure =
        some (some 0)) := by
  have hsmall : ∀ sv : List ℂ, sv.length < 4 → calculate_entanglement_measure sv = 0 := by
    intro sv hlen
    unfold calculate_entanglement_measure entanglement_core
    by_cases h0 : sv.length = 0
    · rw [if_pos h0]
    · rw [if_neg h0]
      have hlog : Nat.log2 sv.length < 2 := by
        rw [Nat.log2_lt h0]
        have h4 : (2 : Nat) ^ 2 = 4 := rfl
        omega
      rw [if_pos hlog]
  refine ⟨hsmall, ?_⟩
  intro data enc hlen henc
  obtain ⟨v, rfl⟩ := List.length_eq_one.mp hlen
  have hlen2 : ∀ ops : List Op, (spec_statevector 1 ops).length = 2 := by
    intro ops
    rw [spec_statevector, stateList]
    simp
  rcases henc with h | h <;> subst h
  · rw [quantum_ml_feature_map_sim, quantum_ml_feature_map_run]
    rw [if_neg (by simp), if_neg (by simp), if_pos rfl]
    simp only [Except.toOption, Option.map, feature_map_analyze]
    rw [hsmall (spec_statevector [v].length (build_amplitude_ops [v]))
      (by rw [show ([v] : List ℝ).length = 1 from rfl, hlen2]; norm_num)]
  · rw [quantum_ml_feature_map_sim, quantum_ml_feature_map_run]
    rw [if_neg (by simp), if_neg (by simp), if_neg (by simp), if_pos rfl]
    simp only [Except.toOption, Option.map, feature_map_analyze]
    rw [hsmall (spec_statevector [v].length (build_angle_ops [v]))
      (by rw [show ([v] : List ℝ).length = 1 from rfl, hlen2]; norm_num)]

/-- Witness for C10 at the one-amplitude statevector `[1]` and the
single-feature data point `[0.7]` under amplitude encoding. -/
theorem entanglement_small_state_zero_witness :
    calculate_entanglement_measure [1] = 0 ∧
      (quantum_ml_feature_map_sim [(0.7 : ℝ)] "amplitude").toOption.map
        FMInfo.entanglement_measure = some (some 0) :=
  ⟨entanglement_small_state_zero.1 [1] (by simp),
   entanglement_small_state_zero.2 [(0.7 : ℝ)] "amplitude" rfl (Or.inl rfl)⟩

/-- C5: each of the eight invalid inputs is rejected with a `ValueError`
(the module's validation kind, distinct from its `QuantumError` used for
backend and simulation failures), and the rejection is independent of the
simulation backend — quantified over every possible backend — so no
simulation work is performed before the raise. -/
theorem validation_rejections :
    (∀ sim : List Op → Nat → List (String × Nat),
      quantum_random_choice_run sim [] 1024 =
        Except.error (.valueError "Choices list cannot be empty")) ∧
    (∀ svsim : Nat → List Op → Option (List ℂ),
      quantum_ml_feature_map_run svsim [] "amplitude" =
        Except.error (.valueError "Data point cannot be empty") ∧
      quantum_ml_feature_map_run svsim (List.replicate 9 (0 : ℝ)) "amplitude" =
        Except.error (.valueError "Data point size limited to 8 features for simulation") ∧
      quantum_ml_feature_map_run svsim [(0.5 : ℝ)] "invalid" =
        Except.error (.valueError "Invalid encoding_type. Use amplitude or angle")) ∧
    quantum_superposition_demo_run 0 =
      Except.error (.valueError "Number of qubits must be between 1 and 6") ∧
    quantum_superposition_demo_run 7 =
      Except.error (.valueError "Number of qubits must be between 1 and 6") ∧
    (∀ sim : List Op → Nat → List (String × Nat),
      quantum_optimization_demo_run sim 1 =
        Except.error (.valueError "Problem size must be between 2 and 10 qubits") ∧
      quantum_optimization_demo_run sim 11 =
        Except.error (.valueError "Problem size must be between 2 and 10 qubits")) := by
  refine ⟨fun sim => rfl, fun svsim => ⟨rfl, rfl, rfl⟩, rfl, rfl, fun sim => ⟨?_, ?_⟩⟩
  · rw [quantum_optimization_demo_run, if_pos (Or.inl (by norm_num))]
  · rw [quantum_optimization_demo_run, if_pos (Or.inr (by norm_num))]

/-- C7 (counterexample): on the 1024-shot tally
`{"00": 1021, "01": 1, "10": 1, "11": 1}` the returned success probability
is `round(1021/1024, 3) = 0.997`, which differs from the exact ratio
`count(best)/shots = 1021/1024` the claim requires. -/
theorem success_probability_rounded :
    (quantum_optimization_analyze 2 [("00", 1021), ("01", 1), ("10", 1), ("11", 1)]).map
      OptResults.success_probability = some (997 / 1000 : ℚ) ∧
    (997 / 1000 : ℚ) ≠ (1021 / 1024 : ℚ) ∧
    (([("00", 1021), ("01", 1), ("10", 1), ("11", 1)] : List (String × Nat)).map
      Prod.snd).sum = 1024 := by
  refine ⟨?_, by norm_num, by decide⟩
  have hmf : most_frequent [("00", 1021), ("01", 1), ("10", 1), ("11", 1)] = some "00" := by
    decide
  have hlk : (([("00", 1021), ("01", 1), ("10", 1), ("11", 1)] :
      List (String × Nat)).lookup "00").getD 0 = 1021 := by decide
  rw [quantum_optimization_analyze, hmf, Option.map_map]
  show some (py_round3 ((1021 : ℚ) / 1024)) = some (997 / 1000 : ℚ)
  have hq : (1021 / 1024 : ℚ) * 1000 = 127625 / 128 := by norm_num
  have hf : ⌊(127625 / 128 : ℚ)⌋ = 997 := by
    rw [Int.floor_eq_iff]
    norm_num
  rw [py_round3, round_half_even, hq, hf]
  norm_num

/-- Round-half-even stays within an interval with integer endpoints. -/
lemma round_half_even_bounds (x : ℚ) (h0 : 0 ≤ x) (h1 : x ≤ 1000) :
    0 ≤ round_half_even x ∧ round_half_even x ≤ 1000 := by
  have hf0 : (0 : ℤ) ≤ ⌊x⌋ := Int.floor_nonneg.mpr h0
  have hfle : (⌊x⌋ : ℚ) ≤ x := Int.floor_le x
  have hup : ⌊x⌋ ≤ 1000 := by
    have : (⌊x⌋ : ℚ) ≤ 1000 := hfle.trans h1
    exact_mod_cast this
  rw [round_half_even]
  split_ifs with hr1 hr2 he
  · exact ⟨hf0, hup⟩
  · refine ⟨by omega, ?_⟩
    have hlt : (⌊x⌋ : ℚ) < 1000 := by linarith
    have : ⌊x⌋ < 1000 := by exact_mod_cast hlt
    omega
  · exact ⟨hf0, hup⟩
  · refine ⟨by omega, ?_⟩
    have hhalf : x - ⌊x⌋ = 1 / 2 := le_antisymm (not_lt.mp hr2) (not_lt.mp hr1)
    have hlt : (⌊x⌋ : ℚ) < 1000 := by linarith
    have : ⌊x⌋ < 1000 := by exact_mod_cast hlt
    omega

/-- `round(·, 3)` maps `[0, 1]` into `[0, 1]`. -/
lemma py_round3_bounds (q : ℚ) (h0 : 0 ≤ q) (h1 : q ≤ 1) :
    0 ≤ py_round3 q ∧ py_round3 q ≤ 1 := by
  have h := round_half_even_bounds (q * 1000) (by positivity) (by linarith)
  rw [py_round3]
  constructor
  · have : (0 : ℚ) ≤ (round_half_even (q * 1000) : ℚ) := by exact_mod_cast h.1
    positivity
  · rw [div_le_one (by norm_num)]
    exact_mod_cast h.2

/-- The count looked up for any key is at most the total of all counts. -/
lemma lookup_le_sum (counts : List (String × Nat)) (k : String) :
    (counts.lookup k).getD 0 ≤ (counts.map Prod.snd).sum := by
  induction counts with
  | nil => simp
  | cons p l ih =>
      obtain ⟨k', v⟩ := p
      by_cases hk : (k == k')
      · simp [List.lookup, hk]
      · simp only [List.lookup, hk, List.map_cons, List.sum_cons]
        omega

/-- C7 (amended): for every problem size and 1024-shot measurement result,
`optimization_demo` returns `success_probability = round(count(best)/1024, 3)`
(rounded to three decimals, not the exact ratio) and
`quantum_advantage_indicator` computed from the unrounded ratio against the
`1/2^problem_size` uniform baseline; the returned probability still lies in
`[0, 1]`. -/
theorem optimization_analyze_spec (ps : Nat) (counts : List (String × Nat))
    (best : String) (_hps : 2 ≤ ps ∧ ps ≤ 10)
    (hmf : most_frequent counts = some best)
    (hsum : (counts.map Prod.snd).sum = 1024) :
    ∃ r : OptResults,
      quantum_optimization_analyze ps counts = some r ∧
      r.problem_size = ps ∧
      r.best_solution = best ∧
      r.success_probability = py_round3 (((counts.lookup best).getD 0 : ℚ) / 1024) ∧
      r.quantum_advantage_indicator =
        decide ((1 : ℚ) / 2 ^ ps < ((counts.lookup best).getD 0 : ℚ) / 1024) ∧
      0 ≤ r.success_probability ∧ r.success_probability ≤ 1 := by
  have hbc : (counts.lookup best).getD 0 ≤ 1024 := hsum ▸ lookup_le_sum counts best
  have h0 : (0 : ℚ) ≤ ((counts.lookup best).getD 0 : ℚ) / 1024 := by positivity
  have h1 : ((counts.lookup best).getD 0 : ℚ) / 1024 ≤ 1 := by
    rw [div_le_one (by norm_num)]
    exact_mod_cast hbc
  have hb := py_round3_bounds _ h0 h1
  refine ⟨{ problem_size := ps
            best_solution := best
            success_probability := py_round3 (((counts.lookup best).getD 0 : ℚ) / 1024)
            total_measurements := 1024
            unique_states_measured := counts.length
            quantum_advantage_indicator :=
              decide ((1 : ℚ) / 2 ^ ps < ((counts.lookup best).getD 0 : ℚ) / 1024) },
    ?_, rfl, rfl, rfl, rfl, hb.1, hb.2⟩
  rw [quantum_optimization_analyze, hmf]
  rfl

/-- Witness for C7 (amended) at the concrete tally
`{"00": 1021, "01": 1, "10": 1, "11": 1}` with problem size 2. -/
theorem optimization_analyze_spec_witness :
    ∃ r : OptResults,
      quantum_optimization_analyze 2 [("00", 1021), ("01", 1), ("10", 1), ("11", 1)] =
        some r ∧
      r.problem_size = 2 ∧
      r.best_solution = "00" ∧
      r.success_probability = py_round3
        (((([("00", 1021), ("01", 1), ("10", 1), ("11", 1)] :
          List (String × Nat)).lookup "00").getD 0 : ℚ) / 1024) ∧
      r.quantum_advantage_indicator =
        decide ((1 : ℚ) / 2 ^ 2 <
          ((([("00", 1021), ("01", 1), ("10", 1), ("11", 1)] :
            List (String × Nat)).lookup "00").getD 0 : ℚ) / 1024) ∧
      0 ≤ r.success_probability ∧ r.success_probability ≤ 1 :=
  optimization_analyze_spec 2 [("00", 1021), ("01", 1), ("10", 1), ("11", 1)] "00"
    (by norm_num) (by decide) (by decide)

/-- C3 (counterexample): for a single option the source builds a circuit on
`max(1, ceil(log2 1)) = 1` qubit, while the claimed formula
`ceil(log2(len(options))) = ceil(log2 1) = 0` gives 0 qubits. -/
theorem random_choice_single_option_qubits :
    n_qubits_choice 1 = 1 ∧ Nat.clog 2 1 = 0 ∧ n_qubits_choice 1 ≠ Nat.clog 2 1 := by
  have h0 : Nat.clog 2 1 = 0 := Nat.clog_one_right 2
  refine ⟨?_, h0, ?_⟩
  · rw [n_qubits_choice, h0]
    decide
  · rw [n_qubits_choice, h0]
    decide

/-- `ceil(log2 3) = 2`. -/
lemma clog_two_three : Nat.clog 2 3 = 2 := by
  rw [Nat.clog_of_two_le (by norm_num) (by norm_num)]
  norm_num
  rw [Nat.clog_of_two_le (by norm_num) (by norm_num)]
  norm_num [Nat.clog_one_right]

/-- C3 (amended): for every non-empty options list, `random_choice` builds
a circuit on `n = max(1, ceil(log2(len(options))))` qubits — the claimed
`ceil(log2 len)` except that a single option still gets one qubit — with H
on every qubit followed by measurement of all qubits, and returns
`(options[v mod len(options)], mf)` where `mf` is the most frequent
measured bitstring (iteration-order tie-break) and `v` its integer value;
the chosen option is always a member of the list.  For 3 options the qubit
count is 2, so the measured values are 0..3 and index `v mod 3` is always
in range. -/
theorem quantum_random_choice_spec (options : List String)
    (counts : List (String × Nat)) (mf : String) (hopt : options ≠ [])
    (hmf : most_frequent counts = some mf) :
    n_qubits_choice options.length = max 1 (Nat.clog 2 options.length) ∧
    build_choice_ops options.length =
      (List.range (max 1 (Nat.clog 2 options.length))).map Op.h ++ [Op.measureAll] ∧
    random_choice_select options counts =
      some (options.getD (py_int_base2 mf % options.length) "", mf) ∧
    options.getD (py_int_base2 mf % options.length) "" ∈ options ∧
    py_int_base2 mf % options.length < options.length ∧
    (options.length = 3 → n_qubits_choice options.length = 2) := by
  have hlen : 0 < options.length := List.length_pos.mpr hopt
  have hidx : py_int_base2 mf % options.length < options.length :=
    Nat.mod_lt _ hlen
  refine ⟨rfl, rfl, ?_, ?_, hidx, ?_⟩
  · rw [random_choice_select, hmf]
    rfl
  · rw [List.getD_eq_getElem options "" hidx]
    exact List.getElem_mem hidx
  · intro h3
    rw [n_qubits_choice, h3, clog_two_three]
    decide

/-- Witness for C3 (amended) at options ["A","B","C"] and the tally
`{"10": 512, "01": 300}` (most frequent "10", value 2, index 2 mod 3). -/
theorem quantum_random_choice_spec_witness :
    n_qubits_choice (["A", "B", "C"] : List String).length =
      max 1 (Nat.clog 2 (["A", "B", "C"] : List String).length) ∧
    build_choice_ops (["A", "B", "C"] : List String).length =
      (List.range (max 1 (Nat.clog 2 (["A", "B", "C"] : List String).length))).map Op.h ++
        [Op.measureAll] ∧
    random_choice_select ["A", "B", "C"] [("10", 512), ("01", 300)] =
      some ((["A", "B", "C"] : List String).getD
        (py_int_base2 "10" % (["A", "B", "C"] : List String).length) "", "10") ∧
    (["A", "B", "C"] : List String).getD
      (py_int_base2 "10" % (["A", "B", "C"] : List String).length) "" ∈
        (["A", "B", "C"] : List String) ∧
    py_int_base2 "10" % (["A", "B", "C"] : List String).length <
      (["A", "B", "C"] : List String).length ∧
    ((["A", "B", "C"] : List String).length = 3 →
      n_qubits_choice (["A", "B", "C"] : List String).length = 2) :=
  quantum_random_choice_spec ["A", "B", "C"] [("10", 512), ("01", 300)] "10"
    (by decide) (by decide)

end HQAI

